import Mathlib

/-!
Shallow embedding of `src/resize_data.py` (an image-dataset resizing script)
and verification of its specification.

Modelling conventions:
* Python's float division `a / b` is modelled by exact division in `ℚ`
  (idealized real arithmetic; IEEE-754 rounding is outside the model).
* Python's `int(x)` (truncation toward zero) is modelled by `pyInt`.
* Pillow images are modelled by the attributes the script reads and writes:
  `width`, `height`, `mode`, `format`, `info`; pixel data and the bilinear
  resampler's pixel output are outside the model.
* The written output file is modelled by the `Output` record: the final
  path, the pixel dimensions passed to the resampler, the color mode, the
  metadata dictionary at save time, and the save parameters.
* Paths are POSIX strings; `os.path.splitext` is modelled character by
  character after CPython's `genericpath._splitext` with `sep = '/'`.
* Exceptions (`ValueError`) are modelled by `Except String`.
-/

namespace ResizeData

/-- Python `int()` on a real value: truncation toward zero.
For a rational `num/den` in lowest terms with `den > 0`, truncating
division of `num` by `den` is exactly rounding toward zero. -/
def pyInt (q : ℚ) : ℤ := q.num.tdiv q.den

/-- The attributes of a `PIL.Image` object that the script reads. -/
structure PyImage where
  width : ℕ
  height : ℕ
  mode : String
  format : Option String
  info : List (String × String)
deriving Repr, DecidableEq

/-- `img.convert('RGB')` (line 13): a new image of the same size in RGB mode.
The new object's `format` attribute is `None` (Pillow does not carry the
source format tag across `convert`), which is why the script records
`original_format` before converting (line 10). -/
def convert_RGB (img : PyImage) : PyImage :=
  { img with mode := "RGB", format := none }

/-- Scale-ratio computation (lines 16–21).  `max_size`/`min_size` are the
optional integer bounds; the error models the raised `ValueError`. -/
def ratioOf (w h : ℕ) (max_size min_size : Option ℤ) : Except String ℚ :=
  match max_size with
  | some M => .ok (min ((M : ℚ) / w) ((M : ℚ) / h))
  | none =>
    match min_size with
    | some m => .ok (max ((m : ℚ) / w) ((m : ℚ) / h))
    | none => .error "Either max_size or min_size must be specified."

/-- `new_size = (int(img.width * ratio), int(img.height * ratio))` (line 23). -/
def new_size (w h : ℕ) (ratio : ℚ) : ℤ × ℤ :=
  (pyInt ((w : ℚ) * ratio), pyInt ((h : ℚ) * ratio))

/-- The result of `img.resize(new_size, BILINEAR)` (line 24): a new image
with the requested dimensions; mode and the `info` dict carry over. -/
structure ResizedImage where
  width : ℤ
  height : ℤ
  mode : String
  info : List (String × String)
deriving Repr, DecidableEq

/-- `img.resize(new_size, Image.Resampling.BILINEAR)` (line 24), restricted
to the attributes the model tracks. -/
def resizePIL (img : PyImage) (size : ℤ × ℤ) : ResizedImage :=
  { width := size.1, height := size.2, mode := img.mode, info := img.info }

/-- `valid_formats = {'JPEG': 'jpg', 'PNG': 'png', 'BMP': 'bmp', 'GIF': 'gif'}`
(line 30), as an association list. -/
def valid_formats : List (String × String) :=
  [("JPEG", "jpg"), ("PNG", "png"), ("BMP", "bmp"), ("GIF", "gif")]

/-- Lines 33–38: if `keep_format and original_format in valid_formats`,
keep the recorded format with its canonical extension, else `('PNG','png')`.
Returns `(save_format, extension)`. -/
def formatChoice (keep_format : Bool) (original_format : Option String) :
    String × String :=
  match original_format with
  | some f =>
    if keep_format then
      match valid_formats.lookup f with
      | some ext => (f, ext)
      | none => ("PNG", "png")
    else ("PNG", "png")
  | none => ("PNG", "png")

/-- Index of the last occurrence of `c` in `l`, or `-1` if absent
(Python's `str.rfind` on a single character). -/
def rfindIdx : List Char → Char → ℤ
  | [], _ => -1
  | a :: l, c =>
    if 0 ≤ rfindIdx l c then rfindIdx l c + 1
    else if a = c then 0 else -1

/-- `os.path.splitext` on a POSIX path, after CPython's
`genericpath._splitext`: split at the last `'.'` that lies after the last
`'/'`, unless every character between them is a `'.'` (dotfiles keep their
name whole). -/
def splitextData (l : List Char) : List Char × List Char :=
  if rfindIdx l '/' < rfindIdx l '.' then
    if ((l.take (rfindIdx l '.').toNat).drop (rfindIdx l '/' + 1).toNat).all (· = '.') then
      (l, [])
    else
      (l.take (rfindIdx l '.').toNat, l.drop (rfindIdx l '.').toNat)
  else (l, [])

/-- `os.path.splitext` on strings. -/
def splitext (p : String) : String × String :=
  (String.mk (splitextData p.data).1, String.mk (splitextData p.data).2)

/-- The file the script writes: final path, the dimensions handed to the
resampler, color mode, metadata at save time, and the save parameters
(lines 42–48). -/
structure Output where
  path : String
  width : ℤ
  height : ℤ
  mode : String
  info : List (String × String)
  save_format : String
  optimize : Bool
  compress_level : Option ℕ
  quality : Option ℕ
deriving Repr, DecidableEq

/-- Python's `str.upper()` on ASCII format tags, character by character. -/
def pyUpper (s : String) : String := String.mk (s.data.map Char.toUpper)

/-- Line 10: `img.format.upper() if img.format else None`, recording the
original format BEFORE the RGB conversion.  The empty string is falsy in
Python, like `None`. -/
def originalFormatOf (img : PyImage) : Option String :=
  match img.format with
  | some f => if f = "" then none else some (pyUpper f)
  | none => none

/-- `resize_image` (lines 7–48).  `max_size`/`min_size` are the optional
bounds, `keep_format` the retention flag; the returned record is the file
written at line 48. -/
def resize_image (img : PyImage) (output_path : String)
    (max_size min_size : Option ℤ) (keep_format : Bool) :
    Except String Output :=
  -- line 10
  let original_format : Option String := originalFormatOf img
  -- line 13
  let img1 := convert_RGB img
  -- lines 16–21
  match ratioOf img1.width img1.height max_size min_size with
  | .error e => .error e
  | .ok ratio =>
    -- lines 23–24
    let ns := new_size img1.width img1.height ratio
    let resized := resizePIL img1 ns
    -- line 27: clear metadata
    let resized := { resized with info := [] }
    -- lines 30–38
    let fc := formatChoice keep_format original_format
    let save_format := fc.1
    let extension := fc.2
    -- line 40: replace the extension on the destination path
    let out_path := (splitext output_path).1 ++ "." ++ extension
    -- lines 42–48
    .ok { path := out_path
          width := resized.width
          height := resized.height
          mode := resized.mode
          info := resized.info
          save_format := save_format
          optimize := extension == "png"
          compress_level := if extension = "png" then some 9 else none
          quality := if extension = "jpg" then some 95 else none }

/-- Extensions accepted by the walker's filename filter (line 59). -/
def imageExts : List String := ["png", "jpg", "jpeg", "bmp", "gif"]

/-- Python's `str.lower()` on ASCII filenames, character by character. -/
def pyLower (s : String) : String := String.mk (s.data.map Char.toLower)

/-- Python's `str.endswith(suffix)`. -/
def pyEndsWith (s suffix : String) : Bool := suffix.data.isSuffixOf s.data

/-- `file.lower().endswith(('png', 'jpg', 'jpeg', 'bmp', 'gif'))` (line 59),
applied to a bare filename. -/
def isImageFilename (name : String) : Bool :=
  imageExts.any (fun e => pyEndsWith (pyLower name) e)

/-- Last path component (what `os.walk` yields as `file`). -/
def basenameOf (p : String) : String :=
  String.mk (p.data.drop ((rfindIdx p.data '/') + 1).toNat)

/-- `os.path.join(output_dir, rel)` (line 65) for a root without trailing
slash and a relative `rel` — the shape produced by
`os.path.relpath(input_path, input_dir)`. -/
def joinRel (dir rel : String) : String := dir ++ "/" ++ rel

/-- `resize_dataset` (lines 51–71).  The walked input tree is given as the
list of discovered files: `(path relative to the input root, decoded image)`.
The filename filter of line 59 applies to the basename, exactly as `os.walk`
presents it; each surviving file is transformed to the mirrored output path.
Directory creation (lines 52–53, 68–69) is a filesystem side effect outside
the model. -/
def resize_dataset (output_dir : String) (files : List (String × PyImage))
    (max_size min_size : Option ℤ) (keep_format : Bool) :
    Except String (List Output) :=
  (files.filter (fun f => isImageFilename (basenameOf f.1))).mapM
    (fun f => resize_image f.2 (joinRel output_dir f.1) max_size min_size keep_format)

/-- Python truthiness of an `Optional[int]`: `None` and `0` are falsy. -/
def truthy : Option ℤ → Bool
  | none => false
  | some n => n != 0

/-- The `__main__` block (lines 85–94): the two `parser.error` guards use
truthiness (`if args.max_size and args.min_size`), then `resize_dataset`
runs.  An `.error` result models `parser.error`'s non-zero exit before any
file is processed. -/
def run_main (output_dir : String) (files : List (String × PyImage))
    (max_size min_size : Option ℤ) (keep_format : Bool) :
    Except String (List Output) :=
  if truthy max_size && truthy min_size then
    .error "Specify either --max_size or --min_size, not both."
  else if !truthy max_size && !truthy min_size then
    .error "Either --max_size or --min_size must be specified."
  else resize_dataset output_dir files max_size min_size keep_format

/-! ### Arithmetic facts about `pyInt` -/

theorem pyInt_eq_floor {q : ℚ} (h : 0 ≤ q) : pyInt q = ⌊q⌋ := by
  rw [pyInt, Rat.floor_def]
  exact Int.tdiv_eq_ediv (Rat.num_nonneg.mpr h) (Int.ofNat_nonneg _)

theorem pyInt_intCast (n : ℤ) : pyInt (n : ℚ) = n := by
  rw [pyInt]
  simp [Rat.num_intCast, Rat.den_intCast]

theorem pyInt_le {q : ℚ} (h : 0 ≤ q) : (pyInt q : ℚ) ≤ q := by
  rw [pyInt_eq_floor h]; exact Int.floor_le q

theorem lt_pyInt_add_one {q : ℚ} (h : 0 ≤ q) : q < pyInt q + 1 := by
  rw [pyInt_eq_floor h]; exact Int.lt_floor_add_one q

theorem pyInt_mono {p q : ℚ} (hp : 0 ≤ p) (hpq : p ≤ q) : pyInt p ≤ pyInt q := by
  rw [pyInt_eq_floor hp, pyInt_eq_floor (hp.trans hpq)]
  exact Int.floor_le_floor hpq

/-! ### The scale-to-bound computation -/

/-- Core of the `max_size` branch, stated for `b ≤ a`: the longer edge
lands exactly on `M`, the shorter one does not exceed it. -/
theorem new_size_max_core (a b : ℕ) (M : ℤ) (ha : 0 < a) (hb : 0 < b)
    (hM : 0 < M) (hba : b ≤ a) :
    pyInt ((a : ℚ) * min ((M : ℚ) / a) ((M : ℚ) / b)) = M ∧
    pyInt ((b : ℚ) * min ((M : ℚ) / a) ((M : ℚ) / b)) ≤ M := by
  have ha' : (0 : ℚ) < a := by exact_mod_cast ha
  have hb' : (0 : ℚ) < b := by exact_mod_cast hb
  have hM' : (0 : ℚ) < M := by exact_mod_cast hM
  have hba' : (b : ℚ) ≤ a := by exact_mod_cast hba
  have hmin : min ((M : ℚ) / a) ((M : ℚ) / b) = (M : ℚ) / a :=
    min_eq_left ((div_le_div_iff_of_pos_left hM' ha' hb').mpr hba')
  have h1 : (a : ℚ) * ((M : ℚ) / a) = M := by field_simp
  rw [hmin]
  refine ⟨by rw [h1]; exact pyInt_intCast M, ?_⟩
  have hle : (b : ℚ) * ((M : ℚ) / a) ≤ M := by
    calc (b : ℚ) * ((M : ℚ) / a) ≤ (a : ℚ) * ((M : ℚ) / a) :=
          mul_le_mul_of_nonneg_right hba' (le_of_lt (div_pos hM' ha'))
    _ = M := h1
  have h0 : 0 ≤ (b : ℚ) * ((M : ℚ) / a) :=
    le_of_lt (mul_pos hb' (div_pos hM' ha'))
  calc pyInt ((b : ℚ) * ((M : ℚ) / a)) ≤ pyInt (M : ℚ) := pyInt_mono h0 hle
  _ = M := pyInt_intCast M

/-- Core of the `min_size` branch, stated for `b ≤ a`: the shorter edge
lands exactly on `m`, the longer one is at least `m`. -/
theorem new_size_min_core (a b : ℕ) (m : ℤ) (ha : 0 < a) (hb : 0 < b)
    (hm : 0 < m) (hba : b ≤ a) :
    pyInt ((b : ℚ) * max ((m : ℚ) / a) ((m : ℚ) / b)) = m ∧
    m ≤ pyInt ((a : ℚ) * max ((m : ℚ) / a) ((m : ℚ) / b)) := by
  have ha' : (0 : ℚ) < a := by exact_mod_cast ha
  have hb' : (0 : ℚ) < b := by exact_mod_cast hb
  have hm' : (0 : ℚ) < m := by exact_mod_cast hm
  have hba' : (b : ℚ) ≤ a := by exact_mod_cast hba
  have hmax : max ((m : ℚ) / a) ((m : ℚ) / b) = (m : ℚ) / b :=
    max_eq_right ((div_le_div_iff_of_pos_left hm' ha' hb').mpr hba')
  have h1 : (b : ℚ) * ((m : ℚ) / b) = m := by field_simp
  rw [hmax]
  refine ⟨by rw [h1]; exact pyInt_intCast m, ?_⟩
  have hge : (m : ℚ) ≤ (a : ℚ) * ((m : ℚ) / b) := by
    calc (m : ℚ) = (b : ℚ) * ((m : ℚ) / b) := h1.symm
    _ ≤ (a : ℚ) * ((m : ℚ) / b) :=
          mul_le_mul_of_nonneg_right hba' (le_of_lt (div_pos hm' hb'))
  calc m = pyInt (m : ℚ) := (pyInt_intCast m).symm
  _ ≤ pyInt ((a : ℚ) * ((m : ℚ) / b)) := pyInt_mono (le_of_lt hm') hge

theorem pyInt_eq_intCast {q : ℚ} {n : ℤ} (h : q = (n : ℚ)) : pyInt q = n :=
  h ▸ pyInt_intCast n

/-! ### Symbolic runs of `resize_image` -/

/-- Running `resize_image` with `max_size = M` (any `min_size`): the bound
and the resulting attributes, read off the definition. -/
theorem resize_image_run_max (img : PyImage) (p : String) (M : ℤ)
    (mi : Option ℤ) (keep : Bool) :
    ∃ o, resize_image img p (some M) mi keep = .ok o ∧
      o.width = pyInt ((img.width : ℚ) * min ((M : ℚ) / img.width) ((M : ℚ) / img.height)) ∧
      o.height = pyInt ((img.height : ℚ) * min ((M : ℚ) / img.width) ((M : ℚ) / img.height)) ∧
      o.mode = "RGB" ∧ o.info = [] :=
  ⟨_, rfl, rfl, rfl, rfl, rfl⟩

/-- Running `resize_image` with `max_size = None, min_size = m`. -/
theorem resize_image_run_min (img : PyImage) (p : String) (m : ℤ)
    (keep : Bool) :
    ∃ o, resize_image img p none (some m) keep = .ok o ∧
      o.width = pyInt ((img.width : ℚ) * max ((m : ℚ) / img.width) ((m : ℚ) / img.height)) ∧
      o.height = pyInt ((img.height : ℚ) * max ((m : ℚ) / img.width) ((m : ℚ) / img.height)) ∧
      o.mode = "RGB" ∧ o.info = [] :=
  ⟨_, rfl, rfl, rfl, rfl, rfl⟩

/-! ### Claim theorems -/

/-- C1: for every source image of positive width `w` and height `h` and every
positive target-max-edge `M`, `resize_image` with `max_size = M` succeeds and
the output dimensions satisfy `max(outW, outH) = M`; each output dimension is
the truncation (by at most one pixel) of the exact aspect-preserving value
`w·r` resp. `h·r`, where the exact values preserve the aspect ratio
`(w·r)/(h·r) = w/h`. -/
theorem resize_image_max_size_bounds (img : PyImage) (p : String) (keep : Bool)
    (M : ℤ) (hw : 0 < img.width) (hh : 0 < img.height) (hM : 0 < M) :
    ∃ (o : Output) (r : ℚ),
      resize_image img p (some M) none keep = .ok o ∧
      r = min ((M : ℚ) / img.width) ((M : ℚ) / img.height) ∧
      max o.width o.height = M ∧
      (o.width : ℚ) ≤ img.width * r ∧ (img.width : ℚ) * r < (o.width : ℚ) + 1 ∧
      (o.height : ℚ) ≤ img.height * r ∧ (img.height : ℚ) * r < (o.height : ℚ) + 1 ∧
      ((img.width : ℚ) * r) / ((img.height : ℚ) * r) = (img.width : ℚ) / (img.height : ℚ) := by
  obtain ⟨o, ho, hwEq, hhEq, -, -⟩ := resize_image_run_max img p M none keep
  have hw' : (0 : ℚ) < img.width := by exact_mod_cast hw
  have hh' : (0 : ℚ) < img.height := by exact_mod_cast hh
  have hM' : (0 : ℚ) < M := by exact_mod_cast hM
  have hr : 0 < min ((M : ℚ) / img.width) ((M : ℚ) / img.height) :=
    lt_min (div_pos hM' hw') (div_pos hM' hh')
  have h0w : 0 ≤ (img.width : ℚ) * min ((M : ℚ) / img.width) ((M : ℚ) / img.height) :=
    le_of_lt (mul_pos hw' hr)
  have h0h : 0 ≤ (img.height : ℚ) * min ((M : ℚ) / img.width) ((M : ℚ) / img.height) :=
    le_of_lt (mul_pos hh' hr)
  refine ⟨o, _, ho, rfl, ?_, ?_, ?_, ?_, ?_, ?_⟩
  · rw [hwEq, hhEq]
    rcases le_total img.height img.width with hba | hab
    · obtain ⟨h1, h2⟩ := new_size_max_core img.width img.height M hw hh hM hba
      rw [h1]
      exact max_eq_left h2
    · obtain ⟨h1, h2⟩ := new_size_max_core img.height img.width M hh hw hM hab
      rw [min_comm ((M : ℚ) / img.width) ((M : ℚ) / img.height)] at *
      rw [h1]
      exact max_eq_right h2
  · rw [hwEq]; exact pyInt_le h0w
  · rw [hwEq]; exact lt_pyInt_add_one h0w
  · rw [hhEq]; exact pyInt_le h0h
  · rw [hhEq]; exact lt_pyInt_add_one h0h
  · exact mul_div_mul_right _ _ (ne_of_gt hr)

/-- C1 witness: the spec's example, a 4000×2000 image with `max_size = 800`. -/
theorem resize_image_max_size_bounds_witness :
    0 < (4000 : ℕ) ∧ 0 < (2000 : ℕ) ∧ 0 < (800 : ℤ) ∧
    (∃ (o : Output) (r : ℚ),
      resize_image ⟨4000, 2000, "RGB", some "JPEG", []⟩ "out/a.jpg"
          (some 800) none false = .ok o ∧
      r = min ((800 : ℚ) / (4000 : ℕ)) ((800 : ℚ) / (2000 : ℕ)) ∧
      max o.width o.height = 800 ∧
      (o.width : ℚ) ≤ (4000 : ℕ) * r ∧ ((4000 : ℕ) : ℚ) * r < (o.width : ℚ) + 1 ∧
      (o.height : ℚ) ≤ (2000 : ℕ) * r ∧ ((2000 : ℕ) : ℚ) * r < (o.height : ℚ) + 1 ∧
      (((4000 : ℕ) : ℚ) * r) / (((2000 : ℕ) : ℚ) * r) = ((4000 : ℕ) : ℚ) / ((2000 : ℕ) : ℚ)) :=
  ⟨by decide, by decide, by decide,
    resize_image_max_size_bounds ⟨4000, 2000, "RGB", some "JPEG", []⟩ "out/a.jpg"
      false 800 (by decide) (by decide) (by decide)⟩

/-- C2: for every source image of positive width `w` and height `h` and every
positive target-min-edge `m`, `resize_image` with `min_size = m` (and
`max_size` unset) succeeds and the output dimensions satisfy
`min(outW, outH) = m`; the dimensions are the truncations of `w·r` and `h·r`
for `r = max(m/w, m/h)`. -/
theorem resize_image_min_size_bounds (img : PyImage) (p : String) (keep : Bool)
    (m : ℤ) (hw : 0 < img.width) (hh : 0 < img.height) (hm : 0 < m) :
    ∃ (o : Output),
      resize_image img p none (some m) keep = .ok o ∧
      min o.width o.height = m ∧
      o.width = pyInt ((img.width : ℚ) * max ((m : ℚ) / img.width) ((m : ℚ) / img.height)) ∧
      o.height = pyInt ((img.height : ℚ) * max ((m : ℚ) / img.width) ((m : ℚ) / img.height)) := by
  obtain ⟨o, ho, hwEq, hhEq, -, -⟩ := resize_image_run_min img p m keep
  refine ⟨o, ho, ?_, hwEq, hhEq⟩
  rw [hwEq, hhEq]
  rcases le_total img.height img.width with hba | hab
  · obtain ⟨h1, h2⟩ := new_size_min_core img.width img.height m hw hh hm hba
    rw [h1]
    exact min_eq_right h2
  · obtain ⟨h1, h2⟩ := new_size_min_core img.height img.width m hh hw hm hab
    rw [max_comm ((m : ℚ) / img.width) ((m : ℚ) / img.height)] at *
    rw [h1]
    exact min_eq_left h2

/-- C2 witness: the spec's example, a 300×600 image with `min_size = 500`
comes out exactly 500×1000. -/
theorem resize_image_min_size_bounds_witness :
    0 < (300 : ℕ) ∧ 0 < (600 : ℕ) ∧ 0 < (500 : ℤ) ∧
    (∃ o, resize_image ⟨300, 600, "P", some "PNG", [("gamma", "0.45")]⟩
        "out/b.png" none (some 500) false = .ok o ∧
      min o.width o.height = 500 ∧ o.width = 500 ∧ o.height = 1000) := by
  refine ⟨by decide, by decide, by decide, ?_⟩
  obtain ⟨o, ho, hmin, hwEq, hhEq⟩ :=
    resize_image_min_size_bounds ⟨300, 600, "P", some "PNG", [("gamma", "0.45")]⟩
      "out/b.png" false 500 (by decide) (by decide) (by decide)
  refine ⟨o, ho, hmin, ?_, ?_⟩
  · rw [hwEq]
    exact pyInt_eq_intCast (by norm_num)
  · rw [hhEq]
    exact pyInt_eq_intCast (by norm_num)

theorem pyInt_natCast (n : ℕ) : pyInt (n : ℚ) = n := by
  have h : ((n : ℤ) : ℚ) = (n : ℚ) := by push_cast; rfl
  exact_mod_cast pyInt_eq_intCast h.symm

/-- C3: for all dimensions and every nonnegative scale ratio (every ratio the
script derives from a nonnegative bound), the computed size is
`(⌊w·ratio⌋, ⌊h·ratio⌋)` — truncation, which differs from rounding to
nearest, as the 3×1 image at ratio 1/2 shows. -/
theorem new_size_eq_floor (w h : ℕ) (ratio : ℚ) (hr : 0 ≤ ratio) :
    new_size w h ratio = (⌊(w : ℚ) * ratio⌋, ⌊(h : ℚ) * ratio⌋) ∧
    new_size 3 1 (1 / 2) ≠
      (round ((3 : ℚ) * (1 / 2)), round ((1 : ℚ) * (1 / 2))) := by
  constructor
  · rw [new_size, pyInt_eq_floor (mul_nonneg (Nat.cast_nonneg w) hr),
      pyInt_eq_floor (mul_nonneg (Nat.cast_nonneg h) hr)]
  · have h1 : new_size 3 1 (1 / 2) = (1, 0) := by
      rw [new_size, Prod.mk.injEq]
      refine ⟨?_, ?_⟩ <;> · rw [pyInt]; norm_num; decide
    have h2 : round ((3 : ℚ) * (1 / 2)) = 2 := by
      rw [round_eq, Rat.floor_def]; norm_num
    have h3 : round ((1 : ℚ) * (1 / 2)) = 1 := by
      rw [round_eq, Rat.floor_def]; norm_num
    rw [h1, h2, h3]
    decide

/-- C3 witness: ratio 1/2 on a 3×1 image gives the floors (1, 0). -/
theorem new_size_eq_floor_witness :
    0 ≤ (1 / 2 : ℚ) ∧
    (new_size 3 1 (1 / 2) = (⌊((3 : ℕ) : ℚ) * (1 / 2)⌋, ⌊((1 : ℕ) : ℚ) * (1 / 2)⌋) ∧
     new_size 3 1 (1 / 2) ≠
       (round ((3 : ℚ) * (1 / 2)), round ((1 : ℚ) * (1 / 2)))) :=
  ⟨by norm_num, new_size_eq_floor 3 1 (1 / 2) (by norm_num)⟩

/-- C7: every file the transformer writes is in RGB mode and carries no
metadata, whatever the source image's mode and `info` were. -/
theorem resize_image_rgb_no_metadata (img : PyImage) (p : String)
    (ms mi : Option ℤ) (keep : Bool) (o : Output)
    (h : resize_image img p ms mi keep = .ok o) :
    o.mode = "RGB" ∧ o.info = [] := by
  cases ms with
  | some M =>
    obtain ⟨o', ho', -, -, hmode, hinfo⟩ := resize_image_run_max img p M mi keep
    obtain rfl : o' = o := Except.ok.inj (ho'.symm.trans h)
    exact ⟨hmode, hinfo⟩
  | none =>
    cases mi with
    | some m =>
      obtain ⟨o', ho', -, -, hmode, hinfo⟩ := resize_image_run_min img p m keep
      obtain rfl : o' = o := Except.ok.inj (ho'.symm.trans h)
      exact ⟨hmode, hinfo⟩
    | none => exact absurd h (by simp [resize_image, ratioOf])

/-- C7 witness: a CMYK source with an ICC profile comes out RGB with empty
metadata. -/
theorem resize_image_rgb_no_metadata_witness :
    ∃ o, resize_image ⟨10, 5, "CMYK", some "TIFF", [("icc_profile", "xyz")]⟩
        "d/f.tif" (some 2) none true = .ok o ∧ o.mode = "RGB" ∧ o.info = [] := by
  obtain ⟨o, ho, -, -, -, -⟩ :=
    resize_image_run_max ⟨10, 5, "CMYK", some "TIFF", [("icc_profile", "xyz")]⟩
      "d/f.tif" 2 none true
  exact ⟨o, ho, resize_image_rgb_no_metadata _ _ _ _ _ o ho⟩

theorem ratio_one_of_max {a b : ℚ} (ha : 0 < a) (hb : 0 < b) :
    min (max a b / a) (max a b / b) = 1 := by
  rcases le_total b a with h | h
  · rw [max_eq_left h, div_self (ne_of_gt ha)]
    exact min_eq_left ((one_le_div hb).mpr h)
  · rw [max_eq_right h, div_self (ne_of_gt hb)]
    exact min_eq_right ((one_le_div ha).mpr h)

theorem ratio_one_of_min {a b : ℚ} (ha : 0 < a) (hb : 0 < b) :
    max (min a b / a) (min a b / b) = 1 := by
  rcases le_total b a with h | h
  · rw [min_eq_right h, div_self (ne_of_gt hb)]
    exact max_eq_right ((div_le_one ha).mpr h)
  · rw [min_eq_left h, div_self (ne_of_gt ha)]
    exact max_eq_left ((div_le_one hb).mpr h)

/-- C8: an image whose longer edge already equals `max_size`, or whose
shorter edge already equals `min_size`, keeps its dimensions exactly (the
computed ratio is 1, so even truncation changes nothing). -/
theorem resize_image_idempotent (img : PyImage) (p : String) (keep : Bool)
    (M m : ℤ) (hw : 0 < img.width) (hh : 0 < img.height)
    (hM : M = ((max img.width img.height : ℕ) : ℤ))
    (hm : m = ((min img.width img.height : ℕ) : ℤ)) :
    (∃ o, resize_image img p (some M) none keep = .ok o ∧
      o.width = img.width ∧ o.height = img.height) ∧
    (∃ o, resize_image img p none (some m) keep = .ok o ∧
      o.width = img.width ∧ o.height = img.height) := by
  have hw' : (0 : ℚ) < img.width := by exact_mod_cast hw
  have hh' : (0 : ℚ) < img.height := by exact_mod_cast hh
  have hMQ : (M : ℚ) = max (img.width : ℚ) (img.height : ℚ) := by
    rw [hM]; push_cast; rfl
  have hmQ : (m : ℚ) = min (img.width : ℚ) (img.height : ℚ) := by
    rw [hm]; push_cast; rfl
  constructor
  · obtain ⟨o, ho, hwEq, hhEq, -, -⟩ := resize_image_run_max img p M none keep
    have hr1 : min ((M : ℚ) / img.width) ((M : ℚ) / img.height) = 1 := by
      rw [hMQ]; exact ratio_one_of_max hw' hh'
    rw [hr1, mul_one, pyInt_natCast] at hwEq hhEq
    exact ⟨o, ho, hwEq, hhEq⟩
  · obtain ⟨o, ho, hwEq, hhEq, -, -⟩ := resize_image_run_min img p m keep
    have hr1 : max ((m : ℚ) / img.width) ((m : ℚ) / img.height) = 1 := by
      rw [hmQ]; exact ratio_one_of_min hw' hh'
    rw [hr1, mul_one, pyInt_natCast] at hwEq hhEq
    exact ⟨o, ho, hwEq, hhEq⟩

/-- C8 witness: an 800×400 image is unchanged under `max_size = 800` and
under `min_size = 400`. -/
theorem resize_image_idempotent_witness :
    0 < (800 : ℕ) ∧ 0 < (400 : ℕ) ∧
    (800 : ℤ) = ((max 800 400 : ℕ) : ℤ) ∧
    (400 : ℤ) = ((min 800 400 : ℕ) : ℤ) ∧
    ((∃ o, resize_image ⟨800, 400, "RGB", some "JPEG", []⟩ "t/a.jpg"
        (some 800) none false = .ok o ∧ o.width = 800 ∧ o.height = 400) ∧
     (∃ o, resize_image ⟨800, 400, "RGB", some "JPEG", []⟩ "t/a.jpg"
        none (some 400) false = .ok o ∧ o.width = 800 ∧ o.height = 400)) :=
  ⟨by decide, by decide, by decide, by decide,
    resize_image_idempotent ⟨800, 400, "RGB", some "JPEG", []⟩ "t/a.jpg"
      false 800 400 (by decide) (by decide) (by decide) (by decide)⟩

/-- C9: when both `max_size` and `min_size` are passed to the transformer,
the `max_size` rule is applied and `min_size` is silently ignored; the
`ValueError` branch is reached exactly when both bounds are `None`. -/
theorem resize_image_min_ignored (img : PyImage) (p : String) (keep : Bool) :
    (∀ (M m : ℤ),
      resize_image img p (some M) (some m) keep =
        resize_image img p (some M) none keep) ∧
    (∀ (M : ℤ) (mi : Option ℤ),
      ∃ o, resize_image img p (some M) mi keep = .ok o) ∧
    (∀ (ms mi : Option ℤ),
      (∃ e, resize_image img p ms mi keep = .error e) ↔
        ms = none ∧ mi = none) := by
  refine ⟨fun M m => rfl, fun M mi => ⟨_, rfl⟩, fun ms mi => ?_⟩
  constructor
  · rintro ⟨e, he⟩
    cases ms with
    | some M =>
      obtain ⟨o, ho, -, -, -, -⟩ := resize_image_run_max img p M mi keep
      rw [ho] at he
      exact Except.noConfusion he
    | none =>
      cases mi with
      | some m =>
        obtain ⟨o, ho, -, -, -, -⟩ := resize_image_run_min img p m keep
        rw [ho] at he
        exact Except.noConfusion he
      | none => exact ⟨rfl, rfl⟩
  · rintro ⟨rfl, rfl⟩
    exact ⟨_, rfl⟩

/-- C10: nothing prevents a zero output dimension: a 1000×1 image with
`max_size = 500` reaches the resampling step with computed size 500×0. -/
theorem resize_image_zero_dimension :
    ∃ o, resize_image ⟨1000, 1, "RGB", some "PNG", []⟩ "o/x.png"
        (some 500) none false = .ok o ∧ o.width = 500 ∧ o.height = 0 := by
  obtain ⟨o, ho, hwEq, hhEq, -, -⟩ :=
    resize_image_run_max ⟨1000, 1, "RGB", some "PNG", []⟩ "o/x.png" 500 none false
  refine ⟨o, ho, ?_, ?_⟩
  · rw [hwEq]
    exact pyInt_eq_intCast (by norm_num)
  · rw [hhEq, pyInt]
    norm_num [min_def]
    decide

/-- Format and path fields of a successful run, read off the definition. -/
theorem resize_image_format_fields (img : PyImage) (p : String)
    (ms mi : Option ℤ) (keep : Bool) (o : Output)
    (h : resize_image img p ms mi keep = .ok o) :
    o.save_format = (formatChoice keep (originalFormatOf img)).1 ∧
    o.path = (splitext p).1 ++ "." ++ (formatChoice keep (originalFormatOf img)).2 := by
  cases ms with
  | some M =>
    have h' : resize_image img p (some M) mi keep = .ok
        { path := (splitext p).1 ++ "." ++ (formatChoice keep (originalFormatOf img)).2
          width := (new_size img.width img.height
            (min ((M : ℚ) / img.width) ((M : ℚ) / img.height))).1
          height := (new_size img.width img.height
            (min ((M : ℚ) / img.width) ((M : ℚ) / img.height))).2
          mode := "RGB"
          info := []
          save_format := (formatChoice keep (originalFormatOf img)).1
          optimize := (formatChoice keep (originalFormatOf img)).2 == "png"
          compress_level :=
            if (formatChoice keep (originalFormatOf img)).2 = "png" then some 9 else none
          quality :=
            if (formatChoice keep (originalFormatOf img)).2 = "jpg" then some 95 else none } := rfl
    obtain rfl : _ = o := Except.ok.inj (h'.symm.trans h)
    exact ⟨rfl, rfl⟩
  | none =>
    cases mi with
    | some m =>
      have h' : resize_image img p none (some m) keep = .ok
          { path := (splitext p).1 ++ "." ++ (formatChoice keep (originalFormatOf img)).2
            width := (new_size img.width img.height
              (max ((m : ℚ) / img.width) ((m : ℚ) / img.height))).1
            height := (new_size img.width img.height
              (max ((m : ℚ) / img.width) ((m : ℚ) / img.height))).2
            mode := "RGB"
            info := []
            save_format := (formatChoice keep (originalFormatOf img)).1
            optimize := (formatChoice keep (originalFormatOf img)).2 == "png"
            compress_level :=
              if (formatChoice keep (originalFormatOf img)).2 = "png" then some 9 else none
            quality :=
              if (formatChoice keep (originalFormatOf img)).2 = "jpg" then some 95 else none } := rfl
      obtain rfl : _ = o := Except.ok.inj (h'.symm.trans h)
      exact ⟨rfl, rfl⟩
    | none => exact absurd h (by simp [resize_image, ratioOf])

theorem lookup_valid_formats_eq_none {k : String}
    (h : k ∉ (["JPEG", "PNG", "BMP", "GIF"] : List String)) :
    valid_formats.lookup k = none := by
  simp only [List.mem_cons, List.not_mem_nil, or_false, not_or] at h
  obtain ⟨h1, h2, h3, h4⟩ := h
  simp [valid_formats, List.lookup, beq_false_of_ne h1, beq_false_of_ne h2,
    beq_false_of_ne h3, beq_false_of_ne h4]

/-- C4: the format policy.  With `keep_format` and a recorded original
format (captured before the RGB conversion) among JPEG/PNG/BMP/GIF, the
output keeps that format and its canonical extension; in every other case
(retention off, unknown format, or a format outside the four) the output is
PNG with extension `png`. -/
theorem resize_image_format_policy (img : PyImage) (p : String)
    (ms mi : Option ℤ) (keep : Bool) (o : Output)
    (h : resize_image img p ms mi keep = .ok o) :
    ((keep = true ∧ img.format.map pyUpper = some "JPEG") →
        o.save_format = "JPEG" ∧ ∃ stem, o.path = stem ++ ".jpg") ∧
    ((keep = true ∧ img.format.map pyUpper = some "PNG") →
        o.save_format = "PNG" ∧ ∃ stem, o.path = stem ++ ".png") ∧
    ((keep = true ∧ img.format.map pyUpper = some "BMP") →
        o.save_format = "BMP" ∧ ∃ stem, o.path = stem ++ ".bmp") ∧
    ((keep = true ∧ img.format.map pyUpper = some "GIF") →
        o.save_format = "GIF" ∧ ∃ stem, o.path = stem ++ ".gif") ∧
    ((keep = false ∨
        (∀ f, img.format = some f →
          pyUpper f ∉ (["JPEG", "PNG", "BMP", "GIF"] : List String))) →
        o.save_format = "PNG" ∧ ∃ stem, o.path = stem ++ ".png") := by
  obtain ⟨hsf, hpath⟩ := resize_image_format_fields img p ms mi keep o h
  have hpos : ∀ (u ext : String),
      img.format.map pyUpper = some u →
      u ∈ (["JPEG", "PNG", "BMP", "GIF"] : List String) →
      valid_formats.lookup u = some ext →
      formatChoice true (originalFormatOf img) = (u, ext) := by
    intro u ext hu hmem hlk
    obtain ⟨f, hf, hfu⟩ := Option.map_eq_some'.mp hu
    have hfne : f ≠ "" := by
      intro h0
      rw [h0, show pyUpper "" = "" from rfl] at hfu
      subst hfu
      exact absurd hmem (by decide)
    have hofmt : originalFormatOf img = some u := by
      rw [originalFormatOf, hf]
      simp [hfne, hfu]
    simp [formatChoice, hofmt, hlk]
  refine ⟨?_, ?_, ?_, ?_, ?_⟩
  · rintro ⟨rfl, hu⟩
    rw [hpos "JPEG" "jpg" hu (by decide) rfl] at hsf hpath
    exact ⟨hsf, (splitext p).1, by rw [hpath, String.append_assoc]; rfl⟩
  · rintro ⟨rfl, hu⟩
    rw [hpos "PNG" "png" hu (by decide) rfl] at hsf hpath
    exact ⟨hsf, (splitext p).1, by rw [hpath, String.append_assoc]; rfl⟩
  · rintro ⟨rfl, hu⟩
    rw [hpos "BMP" "bmp" hu (by decide) rfl] at hsf hpath
    exact ⟨hsf, (splitext p).1, by rw [hpath, String.append_assoc]; rfl⟩
  · rintro ⟨rfl, hu⟩
    rw [hpos "GIF" "gif" hu (by decide) rfl] at hsf hpath
    exact ⟨hsf, (splitext p).1, by rw [hpath, String.append_assoc]; rfl⟩
  · rintro (rfl | hall)
    · have hfc : formatChoice false (originalFormatOf img) = ("PNG", "png") := by
        cases originalFormatOf img <;> rfl
      rw [hfc] at hsf hpath
      exact ⟨hsf, (splitext p).1, by rw [hpath, String.append_assoc]; rfl⟩
    · have hfc : formatChoice keep (originalFormatOf img) = ("PNG", "png") := by
        cases hf : img.format with
        | none =>
          have hofmt : originalFormatOf img = none := by rw [originalFormatOf, hf]
          rw [hofmt, formatChoice]
        | some f =>
          by_cases h0 : f = ""
          · have hofmt : originalFormatOf img = none := by
              rw [originalFormatOf, hf]; simp [h0]
            rw [hofmt, formatChoice]
          · have hofmt : originalFormatOf img = some (pyUpper f) := by
              rw [originalFormatOf, hf]; simp [h0]
            have hlk := lookup_valid_formats_eq_none (hall f hf)
            simp [formatChoice, hofmt, hlk]
      rw [hfc] at hsf hpath
      exact ⟨hsf, (splitext p).1, by rw [hpath, String.append_assoc]; rfl⟩

/-- C4 witness: a JPEG source with `keep_format` keeps JPEG and `.jpg`. -/
theorem resize_image_format_policy_witness :
    ∃ o, resize_image ⟨8, 6, "RGB", some "JPEG", []⟩ "out/q.png"
        (some 4) none true = .ok o ∧
      o.save_format = "JPEG" ∧ ∃ stem, o.path = stem ++ ".jpg" := by
  obtain ⟨o, ho, -, -, -, -⟩ :=
    resize_image_run_max ⟨8, 6, "RGB", some "JPEG", []⟩ "out/q.png" 4 none true
  obtain ⟨hj, -, -, -, -⟩ := resize_image_format_policy _ _ _ _ _ o ho
  exact ⟨o, ho, hj ⟨rfl, by decide⟩⟩

/-- C5 counterexample: with `--max_size 0 --min_size 5` BOTH bounds are
given on the command line, yet the truthiness guard (`if args.max_size and
args.min_size`) treats the 0 as absent: no usage error is raised and the
discovered file IS processed (written as a 0×0 image). -/
theorem run_main_zero_bound_not_rejected :
    ∃ (o : Output) (os : List Output),
      run_main "out" [("a.png", ⟨4, 2, "RGB", some "PNG", []⟩)]
        (some 0) (some 5) false = .ok os ∧ os = [o] := by
  obtain ⟨o, ho, -, -, -, -⟩ :=
    resize_image_run_max ⟨4, 2, "RGB", some "PNG", []⟩ "out/a.png" 0 (some 5) false
  refine ⟨o, [o], ?_, rfl⟩
  rw [run_main, if_neg (by decide), if_neg (by decide), resize_dataset]
  have hf : (([("a.png", (⟨4, 2, "RGB", some "PNG", []⟩ : PyImage))]).filter
      (fun f => isImageFilename (basenameOf f.1))) =
      [("a.png", (⟨4, 2, "RGB", some "PNG", []⟩ : PyImage))] := by decide
  rw [hf, List.mapM_cons, List.mapM_nil]
  have hj : joinRel "out" "a.png" = "out/a.png" := rfl
  rw [hj, ho]
  rfl

/-- C5 amended: the guards use Python truthiness, so a bound equal to `0`
counts as absent.  The program exits with the "not both" usage error exactly
when both bounds are given AND nonzero, and with the "must be specified"
usage error when every given bound is zero or absent; in both error cases no
file is processed. -/
theorem run_main_validation (out : String) (files : List (String × PyImage))
    (ms mi : Option ℤ) (keep : Bool) :
    ((truthy ms && truthy mi) = true →
      run_main out files ms mi keep =
        .error "Specify either --max_size or --min_size, not both.") ∧
    ((truthy ms || truthy mi) = false →
      run_main out files ms mi keep =
        .error "Either --max_size or --min_size must be specified.") := by
  constructor
  · intro h
    rw [run_main, if_pos h]
  · intro h
    obtain ⟨h1, h2⟩ : truthy ms = false ∧ truthy mi = false := by
      constructor <;> revert h <;> cases truthy ms <;> cases truthy mi <;> simp
    rw [run_main, if_neg (by rw [h1]; simp), if_pos (by rw [h1, h2]; rfl)]

/-- C5 amended witness: `--max_size 3 --min_size 4` errors with the "not
both" message; no flags at all errors with the "must be specified" message. -/
theorem run_main_validation_witness :
    (truthy (some 3) && truthy (some 4)) = true ∧
    (truthy (none : Option ℤ) || truthy (none : Option ℤ)) = false ∧
    run_main "out" [] (some 3) (some 4) false =
      .error "Specify either --max_size or --min_size, not both." ∧
    run_main "out" [] (none : Option ℤ) (none : Option ℤ) false =
      .error "Either --max_size or --min_size must be specified." :=
  ⟨by decide, by decide,
    (run_main_validation "out" [] (some 3) (some 4) false).1 (by decide),
    (run_main_validation "out" [] none none false).2 (by decide)⟩

/-! ### Path lemmas for tree mirroring -/

theorem rfindIdx_ge (l : List Char) (c : Char) : -1 ≤ rfindIdx l c := by
  induction l with
  | nil => simp [rfindIdx]
  | cons a t ih =>
    rw [rfindIdx]
    split
    · omega
    · split <;> omega

theorem rfindIdx_lt_length (l : List Char) (c : Char) :
    rfindIdx l c < (l.length : ℤ) := by
  induction l with
  | nil => simp [rfindIdx]
  | cons a t ih =>
    rw [rfindIdx]
    simp only [List.length_cons]
    split
    · push_cast; omega
    · split <;> (push_cast; omega)

theorem rfindIdx_append (l₁ l₂ : List Char) (c : Char) :
    rfindIdx (l₁ ++ l₂) c =
      if 0 ≤ rfindIdx l₂ c then (l₁.length : ℤ) + rfindIdx l₂ c
      else rfindIdx l₁ c := by
  induction l₁ with
  | nil =>
    have hge := rfindIdx_ge l₂ c
    simp only [List.nil_append, List.length_nil, Nat.cast_zero, zero_add]
    split
    · rfl
    · rw [show rfindIdx [] c = -1 from rfl]; omega
  | cons a t ih =>
    show rfindIdx (a :: (t ++ l₂)) c = _
    rw [rfindIdx, ih]
    by_cases h2 : 0 ≤ rfindIdx l₂ c
    · rw [if_pos h2, if_pos h2, if_pos (by positivity), List.length_cons]
      push_cast
      ring
    · rw [if_neg h2, if_neg h2]
      conv_rhs => rw [rfindIdx]

theorem rfindIdx_cons_self (r : List Char) :
    rfindIdx ('/' :: r) '/' =
      if 0 ≤ rfindIdx r '/' then rfindIdx r '/' + 1 else 0 := by
  rw [rfindIdx]
  split
  · rfl
  · rw [if_pos rfl]

theorem rfindIdx_cons_dot (r : List Char) :
    rfindIdx ('/' :: r) '.' =
      if 0 ≤ rfindIdx r '.' then rfindIdx r '.' + 1 else -1 := by
  rw [rfindIdx]
  split
  · rfl
  · rw [if_neg (by decide)]

/-- `os.path.splitext` looks only at the part after the last separator, so
it distributes over prepending `dir ++ "/"`. -/
theorem splitextData_append (d r : List Char) :
    splitextData (d ++ '/' :: r) =
      (d ++ '/' :: (splitextData r).1, (splitextData r).2) := by
  have hS0 : 0 ≤ rfindIdx ('/' :: r) '/' := by
    rw [rfindIdx_cons_self]; split <;> omega
  have hsep : rfindIdx (d ++ '/' :: r) '/' =
      (d.length : ℤ) + rfindIdx ('/' :: r) '/' := by
    rw [rfindIdx_append, if_pos hS0]
  have hgeS := rfindIdx_ge r '/'
  have hgeD := rfindIdx_ge r '.'
  by_cases hrd : 0 ≤ rfindIdx r '.'
  · -- some '.' occurs in the relative part
    have hdot : rfindIdx (d ++ '/' :: r) '.' =
        (d.length : ℤ) + (rfindIdx r '.' + 1) := by
      rw [rfindIdx_append, rfindIdx_cons_dot, if_pos hrd, if_pos (by omega)]
    by_cases hlt : rfindIdx r '/' < rfindIdx r '.'
    · -- the split happens, at the same character of `r` on both sides
      have hcond : rfindIdx (d ++ '/' :: r) '/' < rfindIdx (d ++ '/' :: r) '.' := by
        rw [hsep, hdot, rfindIdx_cons_self]
        split <;> omega
      have htoN : ((d.length : ℤ) + (rfindIdx r '.' + 1)).toNat =
          d.length + ((rfindIdx r '.').toNat + 1) := by omega
      have htake : (d ++ '/' :: r).take
          ((rfindIdx (d ++ '/' :: r) '.').toNat) =
          d ++ '/' :: r.take (rfindIdx r '.').toNat := by
        rw [hdot, htoN, List.take_append, List.take_succ_cons]
      have hdrop : (d ++ '/' :: r).drop
          ((rfindIdx (d ++ '/' :: r) '.').toNat) =
          r.drop (rfindIdx r '.').toNat := by
        rw [hdot, htoN, List.drop_append, List.drop_succ_cons]
      have hdropN : (rfindIdx (d ++ '/' :: r) '/' + 1).toNat =
          d.length + ((rfindIdx ('/' :: r) '/').toNat + 1) := by
        rw [hsep]; omega
      have hbetween :
          ((d ++ '/' :: r).take ((rfindIdx (d ++ '/' :: r) '.').toNat)).drop
            ((rfindIdx (d ++ '/' :: r) '/' + 1).toNat) =
          (r.take (rfindIdx r '.').toNat).drop ((rfindIdx r '/' + 1).toNat) := by
        rw [htake, hdropN, List.drop_append, List.drop_succ_cons]
        congr 1
        rw [rfindIdx_cons_self]
        split <;> omega
      rw [splitextData, if_pos hcond, splitextData, if_pos hlt, hbetween]
      by_cases hall : ((r.take (rfindIdx r '.').toNat).drop
          ((rfindIdx r '/' + 1).toNat)).all (· = '.') = true
      · rw [if_pos hall, if_pos hall]
      · rw [if_neg hall, if_neg hall, htake, hdrop]
    · -- the last '.' of `r` precedes its last '/': no split on either side
      have hcond : ¬ rfindIdx (d ++ '/' :: r) '/' < rfindIdx (d ++ '/' :: r) '.' := by
        rw [hsep, hdot, rfindIdx_cons_self]
        split <;> omega
      rw [splitextData, if_neg hcond, splitextData, if_neg hlt]
  · -- no '.' in the relative part: no split on either side
    have hdot : rfindIdx (d ++ '/' :: r) '.' = rfindIdx d '.' := by
      rw [rfindIdx_append, rfindIdx_cons_dot, if_neg hrd, if_neg (by omega)]
    have hdlt := rfindIdx_lt_length d '.'
    have hcond : ¬ rfindIdx (d ++ '/' :: r) '/' < rfindIdx (d ++ '/' :: r) '.' := by
      rw [hsep, hdot]; omega
    have hcondr : ¬ rfindIdx r '/' < rfindIdx r '.' := by omega
    rw [splitextData, if_neg hcond, splitextData, if_neg hcondr]

theorem splitext_joinRel (dir rel : String) :
    splitext (joinRel dir rel) =
      (dir ++ "/" ++ String.mk (splitextData rel.data).1,
       String.mk (splitextData rel.data).2) := by
  have hdata : (joinRel dir rel).data = dir.data ++ '/' :: rel.data := by
    rw [joinRel]
    show (dir.data ++ ('/' :: []) ++ rel.data) = dir.data ++ '/' :: rel.data
    simp
  rw [splitext, hdata, splitextData_append]
  rw [Prod.mk.injEq]
  refine ⟨?_, rfl⟩
  show String.mk (dir.data ++ '/' :: (splitextData rel.data).1) =
    String.mk ((dir.data ++ ['/']) ++ (splitextData rel.data).1)
  congr 1
  simp

/-- Pointwise path property of a successful `mapM` over discovered files. -/
theorem mapM_resize_paths (out : String) (ms mi : Option ℤ) (keep : Bool) :
    ∀ (l : List (String × PyImage)) (outs : List Output),
      l.mapM (fun f => resize_image f.2 (joinRel out f.1) ms mi keep) = .ok outs →
      List.Forall₂ (fun (f : String × PyImage) (o : Output) =>
        o.path = joinRel out ((splitext f.1).1 ++ "." ++
          (formatChoice keep (originalFormatOf f.2)).2)) l outs := by
  intro l
  induction l with
  | nil =>
    intro outs h
    rw [List.mapM_nil] at h
    obtain rfl : ([] : List Output) = outs := Except.ok.inj h
    exact List.Forall₂.nil
  | cons a t ih =>
    intro outs h
    rw [List.mapM_cons] at h
    cases hres : resize_image a.2 (joinRel out a.1) ms mi keep with
    | error e =>
      rw [hres] at h
      exact absurd h (by simp [Bind.bind, Except.bind])
    | ok o =>
      rw [hres] at h
      cases hrest : t.mapM (fun f => resize_image f.2 (joinRel out f.1) ms mi keep) with
      | error e =>
        rw [show (Except.ok o >>= fun x =>
            t.mapM (fun f => resize_image f.2 (joinRel out f.1) ms mi keep) >>=
              fun xs => pure (x :: xs) : Except String (List Output)) =
            (t.mapM (fun f => resize_image f.2 (joinRel out f.1) ms mi keep) >>=
              fun xs => pure (o :: xs)) from rfl, hrest] at h
        exact absurd h (by simp [Bind.bind, Except.bind])
      | ok os =>
        rw [show (Except.ok o >>= fun x =>
            t.mapM (fun f => resize_image f.2 (joinRel out f.1) ms mi keep) >>=
              fun xs => pure (x :: xs) : Except String (List Output)) =
            (t.mapM (fun f => resize_image f.2 (joinRel out f.1) ms mi keep) >>=
              fun xs => pure (o :: xs)) from rfl, hrest] at h
        obtain rfl : o :: os = outs := Except.ok.inj h
        refine List.Forall₂.cons ?_ (ih os hrest)
        obtain ⟨-, hpath⟩ :=
          resize_image_format_fields a.2 (joinRel out a.1) ms mi keep o hres
        rw [hpath]
        have hsj : (splitext (joinRel out a.1)).1 = out ++ "/" ++ (splitext a.1).1 := by
          rw [splitext_joinRel]; rfl
        rw [hsj, joinRel]
        simp [String.append_assoc]

/-- C6: tree mirroring.  For every discovered file, the produced output's
path is the output root joined with the source's path relative to the input
root, with only the extension replaced (`splitext` strips the old suffix and
the chosen extension is appended); the outputs correspond one-to-one to the
discovered files, so nothing is written anywhere else. -/
theorem resize_dataset_mirrors_tree (out : String)
    (files : List (String × PyImage)) (ms mi : Option ℤ) (keep : Bool)
    (outs : List Output)
    (h : resize_dataset out files ms mi keep = .ok outs) :
    List.Forall₂ (fun (f : String × PyImage) (o : Output) =>
        o.path = joinRel out ((splitext f.1).1 ++ "." ++
          (formatChoice keep (originalFormatOf f.2)).2))
      (files.filter (fun f => isImageFilename (basenameOf f.1))) outs := by
  rw [resize_dataset] at h
  exact mapM_resize_paths out ms mi keep _ outs h

/-- C6 witness: an input tree containing `a/b/c.jpg`, run with output root
`OUT`, produces exactly one file, at `OUT/a/b/c.png`. -/
theorem resize_dataset_mirrors_tree_witness :
    ∃ outs, resize_dataset "OUT" [("a/b/c.jpg", ⟨4, 2, "RGB", some "JPEG", []⟩)]
        (some 2) none false = .ok outs ∧
      List.Forall₂ (fun (f : String × PyImage) (o : Output) =>
        o.path = joinRel "OUT" ((splitext f.1).1 ++ "." ++
          (formatChoice false (originalFormatOf f.2)).2))
        ([("a/b/c.jpg", ⟨4, 2, "RGB", some "JPEG", []⟩)].filter
          (fun f => isImageFilename (basenameOf f.1))) outs ∧
      ∀ o ∈ outs, o.path = "OUT/a/b/c.png" := by
  obtain ⟨o, ho, -, -, -, -⟩ :=
    resize_image_run_max ⟨4, 2, "RGB", some "JPEG", []⟩ "OUT/a/b/c.jpg" 2 none false
  have hds : resize_dataset "OUT" [("a/b/c.jpg", ⟨4, 2, "RGB", some "JPEG", []⟩)]
      (some 2) none false = .ok [o] := by
    rw [resize_dataset]
    have hf : (([("a/b/c.jpg", (⟨4, 2, "RGB", some "JPEG", []⟩ : PyImage))]).filter
        (fun f => isImageFilename (basenameOf f.1))) =
        [("a/b/c.jpg", (⟨4, 2, "RGB", some "JPEG", []⟩ : PyImage))] := by decide
    rw [hf, List.mapM_cons, List.mapM_nil]
    have hj : joinRel "OUT" "a/b/c.jpg" = "OUT/a/b/c.jpg" := rfl
    rw [hj, ho]
    rfl
  refine ⟨[o], hds, resize_dataset_mirrors_tree _ _ _ _ _ _ hds, ?_⟩
  intro x hx
  rw [List.mem_singleton] at hx
  subst hx
  obtain ⟨-, hpath⟩ :=
    resize_image_format_fields ⟨4, 2, "RGB", some "JPEG", []⟩ "OUT/a/b/c.jpg"
      (some 2) none false _ ho
  rw [hpath]
  rfl

end ResizeData
